import Mathlib

/-!
Verification of the voice command interpretation and session-management engine
of the `ai-assistant` repository, against its natural-language specification.

The development shallowly embeds the relevant TypeScript services:

* `AppLauncherService` (`levenshtein`, `findBestFuzzyApp`, `handleAppLaunch`);
* the command registry tiers and the dispatch pipeline of
  `VoiceAssistantService.processCommand` / `CommandProcessorService.processCommand`;
* `historyService.add` / `historyService.addWithResponse`;
* `appDetectionService.getInstalledApps` / `clearCache`;
* the recording guard of `VoiceAssistantService.startRecording`.

JavaScript strings are modelled as Lean `String`s (lists of characters);
JavaScript numbers used in score computations are modelled as exact rationals
(the scores compared here are ratios of small naturals, where IEEE double
comparison agrees with the rational order). Effects on collaborators (TTS,
LLM, app launching) are irrelevant to the verified properties and are either
dropped or represented by explicit oracles.
-/

namespace AiAssistant

/-! ## JavaScript string primitives

The services normalize text with `toLowerCase`, `trim`, `split(/\s+/)`,
`replace(/[^\w\s]/g, "")`, `replace(/\s+/g, "")`, `includes`, `startsWith`.
We model the ASCII behaviour of these operations (all transcripts, command
phrases, aliases and package names in the repository are ASCII). -/

/-- The characters matched by the regex class `\s` (ASCII part). -/
def isWs (c : Char) : Bool :=
  c = ' ' || c = '\t' || c = '\n' || c = '\r' || c = '\x0b' || c = '\x0c'

/-- The characters matched by the regex class `\w`, i.e. `[A-Za-z0-9_]`. -/
def isWordChar (c : Char) : Bool :=
  ('a' ≤ c && c ≤ 'z') || ('A' ≤ c && c ≤ 'Z') || ('0' ≤ c && c ≤ '9') || c = '_'

/-- ASCII `toLowerCase` on a character. -/
def jsLowerChar (c : Char) : Char :=
  if 'A' ≤ c && c ≤ 'Z' then Char.ofNat (c.toNat + 32) else c

/-- `s.toLowerCase()` (ASCII). -/
def toLowerStr (s : String) : String := String.mk (s.data.map jsLowerChar)

/-- `s.trim()`: strip leading and trailing whitespace. -/
def jsTrim (s : String) : String :=
  String.mk (((s.data.dropWhile isWs).reverse.dropWhile isWs).reverse)

/-- `pat` occurs as a contiguous sublist of `l`. -/
def isInfixList (pat : List Char) : List Char → Bool
  | [] => pat.isEmpty
  | l@(_ :: t) => pat.isPrefixOf l || isInfixList pat t

/-- `a.includes(b)`: substring containment. -/
def strContains (s pat : String) : Bool := isInfixList pat.data s.data

/-- `a.startsWith(b)`. -/
def strStartsWith (s pre : String) : Bool := pre.data.isPrefixOf s.data

/-- `s.substring(0, n)` / `s.slice(0, n)`. -/
def strTake (s : String) (n : Nat) : String := String.mk (s.data.take n)

/-- `s.replace(/\s+/g, "")`: remove every whitespace character. -/
def collapseWs (s : String) : String := String.mk (s.data.filter (fun c => !isWs c))

/-- `s.split(/\s+/)` on an already-trimmed string: JavaScript returns `[""]`
for the empty string and the list of (non-empty) whitespace-delimited words
otherwise. -/
def splitWs (s : String) : List String :=
  if s = "" then [""]
  else ((s.data.splitOnP isWs).filter (fun w => w ≠ [])).map String.mk

/-- The transcript normalization
`commandText.toLowerCase().replace(/[^\w\s]/g, "").trim()` used by
`processCommand`. -/
def normalize (s : String) : String :=
  jsTrim (String.mk ((s.data.map jsLowerChar).filter (fun c => isWordChar c || isWs c)))

/-! ## Fuzzy Matcher: `levenshtein` and the similarity score

`AppLauncherService.levenshtein` (identically `VoiceAssistantService.levenshtein`)
fills the DP matrix
`matrix[i][j] = min(matrix[i-1][j] + 1, matrix[i][j-1] + 1, matrix[i-1][j-1] + cost)`
with border rows `matrix[i][0] = i`, `matrix[0][j] = j` and
`cost = (a[i-1] === b[j-1] ? 0 : 1)`, after the early returns for an empty
argument. `levFuel` is that recurrence (the matrix is its memoization),
stated on the character lists; the fuel argument only forces structural
recursion and is irrelevant once it dominates the summed length
(`levFuel_congr`). -/
def levFuel : Nat → List Char → List Char → Nat
  | _, [], b => b.length
  | _, a@(_ :: _), [] => a.length
  | 0, _ :: _, _ :: _ => 0
  | n + 1, x :: xs, y :: ys =>
    min (min (levFuel n xs (y :: ys) + 1) (levFuel n (x :: xs) ys + 1))
      (levFuel n xs ys + if x = y then 0 else 1)

/-- The Levenshtein recurrence with just enough fuel. -/
def levAux (a b : List Char) : Nat := levFuel (a.length + b.length) a b

/-- `levenshtein(a, b)` of `AppLauncherService`. -/
def levenshtein (a b : String) : Nat := levAux a.data b.data

theorem levFuel_congr :
    ∀ (n m : Nat) (a b : List Char), a.length + b.length ≤ n →
      a.length + b.length ≤ m → levFuel n a b = levFuel m a b := by
  intro n
  induction n with
  | zero =>
    intro m a b hn _
    have ha : a = [] := by cases a <;> simp_all
    have hb : b = [] := by cases b <;> simp_all
    subst ha; subst hb
    cases m <;> rfl
  | succ n ih =>
    intro m a b hn hm
    cases a with
    | nil => cases m <;> rfl
    | cons x xs =>
      cases b with
      | nil => cases m <;> rfl
      | cons y ys =>
        cases m with
        | zero => simp at hm
        | succ m' =>
          simp only [List.length_cons] at hn hm
          simp only [levFuel]
          rw [ih m' xs (y :: ys) (by simp; omega) (by simp; omega),
            ih m' (x :: xs) ys (by simp; omega) (by simp; omega),
            ih m' xs ys (by omega) (by omega)]

theorem levAux_nil_left (b : List Char) : levAux [] b = b.length := by
  cases b <;> rfl

theorem levAux_nil_right (a : List Char) : levAux a [] = a.length := by
  cases a <;> rfl

theorem levAux_cons_cons (x y : Char) (xs ys : List Char) :
    levAux (x :: xs) (y :: ys) =
      min (min (levAux xs (y :: ys) + 1) (levAux (x :: xs) ys + 1))
        (levAux xs ys + if x = y then 0 else 1) := by
  have e2 : levAux (x :: xs) ys = levFuel (xs.length + (ys.length + 1)) (x :: xs) ys :=
    levFuel_congr ((x :: xs).length + ys.length) (xs.length + (ys.length + 1))
      (x :: xs) ys (Nat.le_refl _) (by simp; omega)
  have e3 : levAux xs ys = levFuel (xs.length + (ys.length + 1)) xs ys :=
    levFuel_congr (xs.length + ys.length) (xs.length + (ys.length + 1))
      xs ys (Nat.le_refl _) (by omega)
  show levFuel ((x :: xs).length + (y :: ys).length) (x :: xs) (y :: ys) = _
  have hfuel : (x :: xs).length + (y :: ys).length = (xs.length + (ys.length + 1)) + 1 := by
    simp; omega
  rw [hfuel]
  simp only [levFuel]
  rw [← e2, ← e3]
  rfl

/-- The similarity score `1 - d / maxLen` with
`maxLen = Math.max(a.length, b.length, 1)`, as computed inline in
`findBestFuzzyApp` (`scoreName`) and described by the specification's
`similarity(a, b)` contract. -/
def similarity (a b : String) : ℚ :=
  1 - (levenshtein a b : ℚ) / (max (max a.length b.length) 1 : ℚ)

theorem levAux_self (a : List Char) : levAux a a = 0 := by
  induction a with
  | nil => rfl
  | cons x xs ih => rw [levAux_cons_cons]; simp [ih]

theorem levAux_eq_zero_iff (a b : List Char) : levAux a b = 0 ↔ a = b := by
  induction a generalizing b with
  | nil => cases b <;> simp [levAux_nil_left]
  | cons x xs ih =>
    cases b with
    | nil => simp [levAux_nil_right]
    | cons y ys =>
      rw [levAux_cons_cons]
      constructor
      · intro h
        by_cases hxy : x = y
        · rw [if_pos hxy] at h
          have h0 : levAux xs ys = 0 := by omega
          have := (ih ys).mp h0
          simp [hxy, this]
        · rw [if_neg hxy] at h
          omega
      · intro h
        obtain ⟨rfl, rfl⟩ : x = y ∧ xs = ys := by
          injection h with h1 h2; exact ⟨h1, h2⟩
        simp [levAux_self]

theorem levAux_comm (a b : List Char) : levAux a b = levAux b a := by
  induction a generalizing b with
  | nil => cases b <;> simp [levAux_nil_left, levAux_nil_right]
  | cons x xs ih =>
    induction b with
    | nil => simp [levAux_nil_left, levAux_nil_right]
    | cons y ys ihb =>
      have h1 : levAux xs (y :: ys) = levAux (y :: ys) xs := ih (y :: ys)
      have h2 : levAux (x :: xs) ys = levAux ys (x :: xs) := ihb
      have h3 : levAux xs ys = levAux ys xs := ih ys
      have hc : (if x = y then 0 else 1) = (if y = x then 0 else 1) := by
        by_cases h : x = y <;> simp [h, eq_comm]
      rw [levAux_cons_cons, levAux_cons_cons, h1, h2, h3, hc]
      omega

theorem levenshtein_comm (a b : String) : levenshtein a b = levenshtein b a :=
  levAux_comm a.data b.data

theorem levenshtein_eq_zero_iff (a b : String) : levenshtein a b = 0 ↔ a = b := by
  unfold levenshtein
  rw [levAux_eq_zero_iff]
  constructor
  · intro h; cases a; cases b; exact congrArg String.mk h
  · intro h; rw [h]

/-- Claim C7: the implemented `levenshtein` distance is zero exactly on equal
strings and is symmetric; consequently the similarity score
`1 - d / max(len a, len b, 1)` is symmetric, and every string (in particular
every non-empty one) has self-similarity 1. -/
theorem levenshtein_metric_properties (a b : String) :
    (levenshtein a b = 0 ↔ a = b) ∧
    levenshtein a b = levenshtein b a ∧
    similarity a b = similarity b a ∧
    (a ≠ "" → similarity a a = 1) := by
  refine ⟨levenshtein_eq_zero_iff a b, levenshtein_comm a b, ?_, ?_⟩
  · unfold similarity
    rw [levenshtein_comm, max_comm (a.length : ℚ) (b.length : ℚ)]
  · intro _
    unfold similarity
    have h0 : levenshtein a a = 0 := (levenshtein_eq_zero_iff a a).mpr rfl
    rw [h0]
    norm_num

/-- Witness for C7 at concrete strings, discharging the non-emptiness
hypothesis of the self-similarity part. -/
theorem levenshtein_metric_properties_witness :
    similarity "camera" "camera" = 1 :=
  (levenshtein_metric_properties "camera" "chrome").2.2.2 (by decide)

/-! ## A first-maximum characterization of strict-improvement folds

Both `findBestFuzzyApp` and the word-overlap tier of `processCommand` scan a
list keeping the current best score and replacing it only on strict
improvement.  The lemmas below identify the result of such a fold with the
first element attaining the maximal score. -/

/-- One step of the word-overlap best-match loop of `processCommand`
(`if (!bestMatch || score > bestMatch.score) bestMatch = { command, score }`). -/
def bestOverlapStep (f : α → ℚ) (acc : Option (α × ℚ)) (x : α) : Option (α × ℚ) :=
  match acc with
  | none => some (x, f x)
  | some (_, s) => if f x > s then some (x, f x) else acc

/-- The word-overlap best-match loop (fold over the registry in registration
order, starting from `bestMatch = null`). -/
def bestOverlapFold (f : α → ℚ) (l : List α) : Option (α × ℚ) :=
  l.foldl (bestOverlapStep f) none

theorem foldl_bestOverlapStep_some (f : α → ℚ) :
    ∀ (l : List α) (c : α) (s : ℚ),
      ∃ y, l.foldl (bestOverlapStep f) (some (c, s)) = some (y, (l.map f).foldl max s) ∧
        (((l.map f).foldl max s = s ∧ y = c) ∨
          (s < (l.map f).foldl max s ∧
            l.find? (fun z => decide (f z = (l.map f).foldl max s)) = some y)) := by
  intro l
  induction l with
  | nil => intro c s; exact ⟨c, rfl, Or.inl ⟨rfl, rfl⟩⟩
  | cons x xs ih =>
    intro c s
    simp only [List.foldl_cons, List.map_cons]
    by_cases hx : f x > s
    · have hstep : bestOverlapStep f (some (c, s)) x = some (x, f x) := by
        simp [bestOverlapStep, hx]
      have hmax : max s (f x) = f x := max_eq_right hx.le
      rw [hstep]
      simp only [hmax]
      obtain ⟨y, hy, hd⟩ := ih x (f x)
      refine ⟨y, hy, Or.inr ?_⟩
      rcases hd with ⟨hM, hyx⟩ | ⟨hlt, hfind⟩
      · subst hyx
        refine ⟨by rw [hM]; exact hx, ?_⟩
        exact List.find?_cons_of_pos _ (by simp [hM])
      · refine ⟨hx.trans hlt, ?_⟩
        rw [List.find?_cons_of_neg _ (by simp only [decide_eq_true_eq]; exact hlt.ne)]
        exact hfind
    · have hstep : bestOverlapStep f (some (c, s)) x = some (c, s) := by
        simp [bestOverlapStep, hx]
      have hmax : max s (f x) = s := max_eq_left (not_lt.mp hx)
      rw [hstep]
      simp only [hmax]
      obtain ⟨y, hy, hd⟩ := ih c s
      refine ⟨y, hy, ?_⟩
      rcases hd with ⟨hM, hyc⟩ | ⟨hlt, hfind⟩
      · exact Or.inl ⟨hM, hyc⟩
      · refine Or.inr ⟨hlt, ?_⟩
        rw [List.find?_cons_of_neg _ (by
          simp only [decide_eq_true_eq]
          intro h
          exact absurd (h ▸ hlt) (not_lt.mpr (not_lt.mp hx)))]
        exact hfind

/-- The strict-improvement fold with `null` start returns the first element
attaining the maximal score, together with that score. -/
theorem bestOverlapFold_eq (f : α → ℚ) (x : α) (xs : List α) :
    ∃ y, bestOverlapFold f (x :: xs) = some (y, (xs.map f).foldl max (f x)) ∧
      (x :: xs).find? (fun z => decide (f z = (xs.map f).foldl max (f x))) = some y := by
  obtain ⟨y, hy, hd⟩ := foldl_bestOverlapStep_some f xs x (f x)
  refine ⟨y, ?_, ?_⟩
  · unfold bestOverlapFold
    simpa [bestOverlapStep] using hy
  · rcases hd with ⟨hM, hyx⟩ | ⟨hlt, hfind⟩
    · subst hyx
      exact List.find?_cons_of_pos _ (by simp [hM])
    · rw [List.find?_cons_of_neg _ (by simp only [decide_eq_true_eq]; exact hlt.ne)]
      exact hfind

end AiAssistant

namespace AiAssistant

/-! ## Command Registry

`VoiceCommand` of `voiceAssistantService` (part_005) /
`CommandProcessorService`: a canonical phrase, optional description and a
keyword list.  The action callback is an effect on collaborators and carries
no information relevant to resolution, so it is not modelled.
`registerCommand` stores the command in a `Map` keyed by
`command.toLowerCase()`; a JavaScript `Map` iterates in insertion order, so
the registry is modelled as the association list of
`(key, command)` pairs in registration order. -/

structure VoiceCommand where
  command : String
  description : Option String
  keywords : List String
deriving DecidableEq

/-- A registry entry: the `Map` key `command.toLowerCase()` with its command. -/
abbrev RegEntry := String × VoiceCommand

/-- The registry built by registering `cmds` in order (no phrase is
registered twice in the repository, so `Map.set` never overwrites). -/
def mkRegistry (cmds : List VoiceCommand) : List RegEntry :=
  cmds.map (fun c => (toLowerStr c.command, c))

/-- The word-overlap score of tier (d):
`score = |keyWords ∩ inputWords| / |keyWords|` with
`keyWords = key.split(/\s+/)` and shared words counted as in
`keyWords.filter((w) => inputWords.includes(w)).length`. -/
def overlapScore (inputWords : List String) (kc : RegEntry) : ℚ :=
  let keyWords := splitWs kc.1
  ((keyWords.filter (fun w => inputWords.contains w)).length : ℚ) / (keyWords.length : ℚ)

/-- The registry-resolution portion of
`VoiceAssistantService.processCommand` (part_005 lines 358-422, identically
`CommandProcessorService.processCommand` lines 544-597): exact lookup, the
bidirectional-substring loop, the keyword loop, a (redundant) second exact
lookup, then the word-overlap best match accepted at score ≥ 0.5.  The
returned entry is the command whose action is executed. -/
def registryResolve (cmds : List RegEntry) (norm : String) : Option RegEntry :=
  match cmds.find? (fun kc => kc.1 == norm) with
  | some kc => some kc
  | none =>
    match cmds.find? (fun kc => strContains norm kc.1 || strContains kc.1 norm) with
    | some kc => some kc
    | none =>
      match cmds.find? (fun kc => kc.2.keywords.any (fun kw => strContains norm kw)) with
      | some kc => some kc
      | none =>
        match cmds.find? (fun kc => kc.1 == norm) with
        | some kc => some kc
        | none =>
          let inputWords := splitWs norm
          match bestOverlapFold (overlapScore inputWords) cmds with
          | some (kc, score) => if score ≥ 1/2 then some kc else none
          | none => none

/-! Specification-side rendering of §4.2: the four tiers as separate
functions, first-match-wins in registration order within tiers (a)-(c),
maximum selection (first wins ties) in tier (d), composed so that matching
stops at the first tier that yields a result. -/

/-- Tier (a): exact normalized-phrase match. -/
def specTierExact (cmds : List RegEntry) (norm : String) : Option RegEntry :=
  cmds.find? (fun kc => kc.1 == norm)

/-- Tier (b): the normalized text contains a registered phrase or a
registered phrase contains the normalized text. -/
def specTierSubstring (cmds : List RegEntry) (norm : String) : Option RegEntry :=
  cmds.find? (fun kc => strContains norm kc.1 || strContains kc.1 norm)

/-- Tier (c): some configured keyword of the command is a substring of the
normalized text. -/
def specTierKeyword (cmds : List RegEntry) (norm : String) : Option RegEntry :=
  cmds.find? (fun kc => kc.2.keywords.any (fun kw => strContains norm kw))

/-- Tier (d): word-overlap scoring; the best-scoring command (first wins
ties) is accepted when its score is at least 0.5. -/
def specTierOverlap (cmds : List RegEntry) (norm : String) : Option RegEntry :=
  let iw := splitWs norm
  match cmds with
  | [] => none
  | x :: xs =>
    let best := (xs.map (overlapScore iw)).foldl max (overlapScore iw x)
    if best ≥ 1/2 then cmds.find? (fun kc => decide (overlapScore iw kc = best)) else none

/-- §4.2 `resolve`: try the tiers in order, stopping at the first tier that
yields a result. -/
def specResolve (cmds : List RegEntry) (norm : String) : Option RegEntry :=
  (specTierExact cmds norm).orElse fun _ =>
    (specTierSubstring cmds norm).orElse fun _ =>
      (specTierKeyword cmds norm).orElse fun _ =>
        specTierOverlap cmds norm

/-- Claim C1: command-registry resolution is exactly the four-tier cascade of
§4.2 — exact match, bidirectional substring, keyword containment, then
word-overlap scoring with acceptance threshold 0.5 — stopping at the first
tier that yields a result, first-match-wins in registration order within
tiers (a)-(c), maximum selection (first wins ties) in tier (d); it yields no
command exactly when no tier matches. -/
theorem registryResolve_eq_specResolve (cmds : List RegEntry) (norm : String) :
    registryResolve cmds norm = specResolve cmds norm ∧
      (registryResolve cmds norm = none ↔
        specTierExact cmds norm = none ∧ specTierSubstring cmds norm = none ∧
          specTierKeyword cmds norm = none ∧ specTierOverlap cmds norm = none) := by
  have hmain : registryResolve cmds norm = specResolve cmds norm := by
    unfold registryResolve specResolve
    cases hA : cmds.find? (fun kc => kc.1 == norm) with
    | some kc => simp [specTierExact, hA, Option.orElse]
    | none =>
      simp only [specTierExact, hA]
      cases hB : cmds.find? (fun kc => strContains norm kc.1 || strContains kc.1 norm) with
      | some kc => simp [specTierSubstring, hB, Option.orElse]
      | none =>
        simp only [specTierSubstring, hB]
        cases hC : cmds.find? (fun kc => kc.2.keywords.any (fun kw => strContains norm kw)) with
        | some kc => simp [specTierKeyword, hC, Option.orElse]
        | none =>
          simp only [specTierKeyword, hC, hA, Option.orElse, specTierOverlap]
          cases cmds with
          | nil => rfl
          | cons x xs =>
            obtain ⟨y, hy, hfind⟩ := bestOverlapFold_eq (overlapScore (splitWs norm)) x xs
            rw [hy]
            dsimp only
            by_cases hthr : (xs.map (overlapScore (splitWs norm))).foldl max
                (overlapScore (splitWs norm) x) ≥ 1/2
            · rw [if_pos hthr, if_pos hthr, hfind]
            · rw [if_neg hthr, if_neg hthr]
  refine ⟨hmain, ?_⟩
  rw [hmain]
  unfold specResolve
  cases specTierExact cmds norm <;>
    cases specTierSubstring cmds norm <;>
      cases specTierKeyword cmds norm <;>
        cases hD : specTierOverlap cmds norm <;>
          simp [Option.orElse]

end AiAssistant

namespace AiAssistant

/-! ## Wake-word trigger and the dispatch pipeline

`processCommand` first tests `/\b2b\b/` against the normalized transcript;
on a hit it extracts the user query from the original text with
`commandText.replace(/.*?\b2b\b[\s:,-]*/i, "").trim()` and routes it to the
LLM, never running command matching.  The regex scans are modelled
character-by-character; `\b` is a word boundary with respect to `\w`. -/

/-- The position before the current character is a word boundary when the
previous character is absent or not a word character. -/
def boundaryBefore (prev : Option Char) : Bool :=
  match prev with
  | none => true
  | some c => !isWordChar c

/-- The position after the matched token is a word boundary when the next
character is absent or not a word character. -/
def boundaryAfterOk (rest : List Char) : Bool :=
  match rest with
  | [] => true
  | c :: _ => !isWordChar c

/-- Scan for `/\b2b\b/i`: the remainder after the first standalone
occurrence of the token `2b` (case-insensitively), if any. -/
def token2bSplit (prev : Option Char) : List Char → Option (List Char)
  | [] => none
  | c :: rest =>
    if c = '2' then
      match rest with
      | d :: rest2 =>
        if (d = 'b' || d = 'B') && boundaryBefore prev && boundaryAfterOk rest2 then
          some rest2
        else token2bSplit (some c) rest
      | [] => none
    else token2bSplit (some c) rest

/-- Scan for `/\b2b\b/` (case-sensitive, as run on the lowercased
normalized text). -/
def token2bSplitStrict (prev : Option Char) : List Char → Option (List Char)
  | [] => none
  | c :: rest =>
    if c = '2' then
      match rest with
      | d :: rest2 =>
        if (d = 'b') && boundaryBefore prev && boundaryAfterOk rest2 then
          some rest2
        else token2bSplitStrict (some c) rest
      | [] => none
    else token2bSplitStrict (some c) rest

/-- `normalizedCommand.match(/\b2b\b/) !== null`. -/
def hasToken2b (s : String) : Bool := (token2bSplitStrict none s.data).isSome

/-- The separator class `[\s:,-]` after the token. -/
def isSepChar (c : Char) : Bool := isWs c || c = ':' || c = ',' || c = '-'

/-- `commandText.replace(/.*?\b2b\b[\s:,-]*/i, "").trim()` for transcripts
without line terminators (`.` does not cross a newline; speech transcripts
contain none): everything up to and including the first standalone `2b` and
the separator run after it is removed, then the remainder is trimmed; with
no match the original text is just trimmed. -/
def extract2b (t : String) : String :=
  match token2bSplit none t.data with
  | some rest => jsTrim (String.mk (rest.dropWhile isSepChar))
  | none => jsTrim t

/-- The result record `{ success, message? }` of `processCommand`. -/
structure CmdResult where
  success : Bool
  message : Option String
deriving DecidableEq

/-- The failure message of the empty-remainder wake-word branch. -/
def please2bMsg : String := "Please provide a question after \"2b\"."

/-- Which branch of `VoiceAssistantService.processCommand` (part_005 lines
290-494) handles the transcript, with the data handed to that branch.  The
branches' collaborator effects (LLM call, TTS, history writes, app launch)
happen strictly after this decision. -/
inductive Dispatch where
  | failure (r : CmdResult)
  | triggerLLM (query : String)
  | appLaunch (appName : String)
  | registryExec (phrase : String)
  | startAlias (pkg : String) (appQuery : String)
  | startHandle (appQuery : String)
  | llmFallback (text : String)
deriving DecidableEq

/-- `APP_ALIASES` (identical in part_005, part_003 and
`AppLauncherService`). -/
def APP_ALIASES : List (String × String) := [
  ("youtube", "com.google.android.youtube"),
  ("chrome", "com.android.chrome"),
  ("google", "com.android.chrome"),
  ("maps", "com.google.android.apps.maps"),
  ("whatsapp", "com.whatsapp"),
  ("instagram", "com.instagram.android"),
  ("facebook", "com.facebook.katana"),
  ("spotify", "com.spotify.music"),
  ("gmail", "com.google.android.gm"),
  ("camera", "com.android.camera"),
  ("cam", "com.android.camera"),
  ("camera app", "com.android.camera"),
  ("google camera", "com.google.android.camera"),
  ("samsung camera", "com.samsung.android.camera"),
  ("miui camera", "com.miui.camera"),
  ("huawei camera", "com.huawei.camera")]

/-- `this.APP_ALIASES[key]` (object lookup; keys are distinct). -/
def lookupAlias (key : String) : Option String :=
  (APP_ALIASES.find? (fun kv => kv.1 == key)).map Prod.snd

/-- `s.replace(/^(open|launch)\s+/, "")`: remove the leading verb and the
following whitespace run, if the string starts with one. -/
def stripVerbWs (verb s : String) : Option String :=
  if verb.data.isPrefixOf s.data then
    match s.data.drop verb.data.length with
    | c :: rest => if isWs c then some (String.mk ((c :: rest).dropWhile isWs)) else none
    | [] => none
  else none

def stripOpenLaunch (s : String) : String :=
  ((stripVerbWs "open" s).orElse fun _ => stripVerbWs "launch" s).getD s

/-- `normalizedCommand.match(/^(open|launch|start)\s+(.+)$/)`: the captured
group 2 (which must be non-empty and free of line terminators). -/
def matchOpenLaunchStart (s : String) : Option String :=
  match (stripVerbWs "open" s).orElse fun _ =>
      (stripVerbWs "launch" s).orElse fun _ => stripVerbWs "start" s with
  | some rest =>
    if rest ≠ "" && rest.data.all (fun c => !(c = '\n' || c = '\r')) then some rest else none
  | none => none

/-- The dispatch decision of `VoiceAssistantService.processCommand`
(part_005 lines 290-494): wake-word trigger, early `open `/`launch `
app-launch routing, the four registry tiers (`registryResolve`), the
`open|launch|start` fallback with its alias shortcut, then the LLM
fallback. -/
def dispatchDecision (cmds : List RegEntry) (t : String) : Dispatch :=
  let norm := normalize t
  if hasToken2b norm then
    let userQuery := extract2b t
    if userQuery = "" then .failure ⟨false, some please2bMsg⟩
    else .triggerLLM userQuery
  else
    let rest : Dispatch :=
      match registryResolve cmds norm with
      | some kc => .registryExec kc.2.command
      | none =>
        match matchOpenLaunchStart norm with
        | some g2 =>
          let appQuery := jsTrim g2
          let aliasKey := collapseWs (toLowerStr appQuery)
          match lookupAlias aliasKey with
          | some pkg => .startAlias pkg appQuery
          | none => .startHandle appQuery
        | none => .llmFallback t
    if strStartsWith norm "open " || strStartsWith norm "launch " then
      let appName := jsTrim (stripOpenLaunch norm)
      if appName ≠ "" then .appLaunch appName else rest
    else rest

/-- The commands registered by `initializeCommands` of part_005, in
registration order. -/
def part5Commands : List VoiceCommand := [
  ⟨"open settings", some "Opens device settings", ["open", "settings"]⟩,
  ⟨"what time is it", some "Tells the current time", ["time"]⟩,
  ⟨"what day is it", some "Tells the current date", ["day", "date", "today"]⟩,
  ⟨"list apps", some "Lists installed apps", ["list", "apps", "applications"]⟩,
  ⟨"app list", some "Open the apps list screen (short)",
    ["app list", "apps", "list apps", "show apps", "application list"]⟩,
  ⟨"open camera", some "Opens the device camera", ["open camera", "camera", "cam"]⟩,
  ⟨"hello", some "Greets the user", ["hello", "hi"]⟩,
  ⟨"status", some "Reports system status", ["status"]⟩]

def part5Registry : List RegEntry := mkRegistry part5Commands

end AiAssistant

namespace AiAssistant

/-- Claim C2: whenever the normalized transcript contains the wake word `2b`
as a standalone token, dispatch takes the wake-word branch — the extracted
remainder is sent to the LLM, or, when it is empty, a failure asking for a
question after "2b" is returned — and command matching never runs; in
particular `"2b what time is it in tokyo"` is sent to the LLM as
`"what time is it in tokyo"` even though `"what time is it"` is a registered
command, the token is matched case-insensitively in the original text and
the remainder keeps its punctuation and casing
(`"Hey 2B, status report!"` → `"status report!"`, beating the registered
`"status"` command's keyword), and the bare transcript `"2b"` produces the
empty-remainder failure. -/
theorem wake_word_trigger_priority :
    (∀ (cmds : List RegEntry) (t : String), hasToken2b (normalize t) = true →
      dispatchDecision cmds t =
        (if extract2b t = "" then Dispatch.failure ⟨false, some please2bMsg⟩
         else Dispatch.triggerLLM (extract2b t))) ∧
    dispatchDecision part5Registry "2b what time is it in tokyo" =
      Dispatch.triggerLLM "what time is it in tokyo" ∧
    part5Registry.any (fun kc => kc.1 == "what time is it") = true ∧
    dispatchDecision part5Registry "Hey 2B, status report!" =
      Dispatch.triggerLLM "status report!" ∧
    part5Registry.any (fun kc => kc.2.keywords.contains "status") = true ∧
    dispatchDecision part5Registry "2b" =
      Dispatch.failure ⟨false, some please2bMsg⟩ := by
  refine ⟨?_, by decide, by decide, by decide, by decide, by decide⟩
  intro cmds t h
  unfold dispatchDecision
  simp only [h, if_true]

/-- Witness for C2 at a concrete transcript, discharging the token
hypothesis of the universal part. -/
theorem wake_word_trigger_priority_witness :
    dispatchDecision [] "ok 2b hello there" =
      (if extract2b "ok 2b hello there" = "" then Dispatch.failure ⟨false, some please2bMsg⟩
       else Dispatch.triggerLLM (extract2b "ok 2b hello there")) :=
  wake_word_trigger_priority.1 [] "ok 2b hello there" (by decide)

/-- Counterexample to claim C3 as stated: the transcript `"open settings"`,
the canonical phrase of the registered `"open settings"` command, is routed
by dispatch to the app-launch handler with query `"settings"`; the
registered command is not executed. -/
theorem open_phrase_bypasses_registry :
    dispatchDecision part5Registry "open settings" = Dispatch.appLaunch "settings" ∧
    dispatchDecision part5Registry "open settings" ≠ Dispatch.registryExec "open settings" ∧
    part5Registry.any (fun kc => kc.1 == "open settings") = true := by
  refine ⟨by decide, ?_, by decide⟩
  intro h
  rw [(by decide : dispatchDecision part5Registry "open settings" =
    Dispatch.appLaunch "settings")] at h
  exact Dispatch.noConfusion h

/-- Claim C3 as amended: registry-level resolution of a registered
canonical phrase is exact for every command of the concrete registry
(including the `open`-prefixed ones), and dispatching the phrase executes
the registered command for every phrase that does not begin with `"open "`
or `"launch "` (phrases beginning with those verbs are intercepted by the
app-launch tier before the registry runs). -/
theorem registry_phrase_dispatch :
    (∀ kc ∈ part5Registry, registryResolve part5Registry (normalize kc.1) = some kc) ∧
    (∀ kc ∈ part5Registry,
      strStartsWith kc.1 "open " = false → strStartsWith kc.1 "launch " = false →
        dispatchDecision part5Registry kc.1 = Dispatch.registryExec kc.2.command) := by
  constructor
  · decide
  · decide

/-- Witness for the amended C3 at the registered `"hello"` command. -/
theorem registry_phrase_dispatch_witness :
    dispatchDecision part5Registry "hello" = Dispatch.registryExec "hello" :=
  registry_phrase_dispatch.2 ("hello", ⟨"hello", some "Greets the user", ["hello", "hi"]⟩)
    (by decide) (by decide) (by decide)

end AiAssistant

namespace AiAssistant

/-! ## App Resolver: `findBestFuzzyApp` -/

/-- An entry of the installed-app inventory as consumed by the matcher. -/
structure AppInfo where
  appName : String
  packageName : String
deriving DecidableEq

/-- The per-candidate score of `findBestFuzzyApp`:
`score = max(scoreName, prefixScore)` with
`scoreName = 1 - levenshtein(name, q) / max(name.length, q.length, 1)` and
`prefixScore = (name.startsWith(q) || pkg.startsWith(q)) ? 1 : 0`, where
`name`/`pkg` are the lowercased app fields and `q` the lowercased trimmed
query. -/
def fuzzyScore (q : String) (app : AppInfo) : ℚ :=
  let name := toLowerStr app.appName
  let pkg := toLowerStr app.packageName
  let maxLen : ℚ := max (max name.length q.length) 1
  let d : ℚ := levenshtein name q
  let scoreName : ℚ := 1 - d / maxLen
  let prefixScore : ℚ := if strStartsWith name q || strStartsWith pkg q then 1 else 0
  max scoreName prefixScore

/-- One step of `findBestFuzzyApp`'s loop
(`if (score > bestScore) { bestScore = score; best = app; }`). -/
def bestScoreStep (f : α → ℚ) (acc : Option α × ℚ) (x : α) : Option α × ℚ :=
  if f x > acc.2 then (some x, f x) else acc

/-- `findBestFuzzyApp(apps, query)` of `AppLauncherService` (lines 210-233,
identically part_005 lines 993-1017): starting from `best = null`,
`bestScore = 0`, keep the strictly best-scoring app. -/
def findBestFuzzyApp (apps : List AppInfo) (query : String) : Option AppInfo × ℚ :=
  let q := jsTrim (toLowerStr query)
  apps.foldl (bestScoreStep (fuzzyScore q)) (none, 0)

theorem foldl_bestScoreStep_spec (f : α → ℚ) :
    ∀ (l : List α) (a : Option α) (s : ℚ),
      ∃ r, l.foldl (bestScoreStep f) (a, s) = (r, (l.map f).foldl max s) ∧
        (((l.map f).foldl max s = s ∧ r = a) ∨
          (s < (l.map f).foldl max s ∧ ∃ y, r = some y ∧
            l.find? (fun z => decide (f z = (l.map f).foldl max s)) = some y)) := by
  intro l
  induction l with
  | nil => intro a s; exact ⟨a, rfl, Or.inl ⟨rfl, rfl⟩⟩
  | cons x xs ih =>
    intro a s
    simp only [List.foldl_cons, List.map_cons]
    by_cases hx : f x > s
    · have hstep : bestScoreStep f (a, s) x = (some x, f x) := by
        simp [bestScoreStep, hx]
      have hmax : max s (f x) = f x := max_eq_right hx.le
      rw [hstep]
      simp only [hmax]
      obtain ⟨r, hr, hd⟩ := ih (some x) (f x)
      refine ⟨r, hr, Or.inr ?_⟩
      rcases hd with ⟨hM, hra⟩ | ⟨hlt, y, hsome, hfind⟩
      · subst hra
        refine ⟨by rw [hM]; exact hx, x, rfl, ?_⟩
        exact List.find?_cons_of_pos _ (by simp [hM])
      · refine ⟨hx.trans hlt, y, hsome, ?_⟩
        rw [List.find?_cons_of_neg _ (by simp only [decide_eq_true_eq]; exact hlt.ne)]
        exact hfind
    · have hstep : bestScoreStep f (a, s) x = (a, s) := by
        simp [bestScoreStep, hx]
      have hmax : max s (f x) = s := max_eq_left (not_lt.mp hx)
      rw [hstep]
      simp only [hmax]
      obtain ⟨r, hr, hd⟩ := ih a s
      refine ⟨r, hr, ?_⟩
      rcases hd with ⟨hM, hra⟩ | ⟨hlt, y, hsome, hfind⟩
      · exact Or.inl ⟨hM, hra⟩
      · refine Or.inr ⟨hlt, y, hsome, ?_⟩
        rw [List.find?_cons_of_neg _ (by
          simp only [decide_eq_true_eq]
          intro h
          exact absurd (h ▸ hlt) (not_lt.mpr (not_lt.mp hx)))]
        exact hfind

/-- Claim C8 as amended: `findBestFuzzyApp` computes for every candidate the
score `max(similarity(name, query), prefixBonus)` where the prefix bonus is
granted exactly when the lowercased trimmed query is a prefix of the
lowercased app name or of the lowercased package identifier, and returns the
first candidate attaining the maximal score together with that score —
except that when the maximal score is 0 (in particular for an empty
candidate list) no candidate is returned. -/
theorem findBestFuzzyApp_argmax (apps : List AppInfo) (query : String) :
    findBestFuzzyApp apps query =
      (if 0 < (apps.map (fuzzyScore (jsTrim (toLowerStr query)))).foldl max 0 then
        apps.find? (fun a => decide (fuzzyScore (jsTrim (toLowerStr query)) a =
          (apps.map (fuzzyScore (jsTrim (toLowerStr query)))).foldl max 0))
       else none,
       (apps.map (fuzzyScore (jsTrim (toLowerStr query)))).foldl max 0) := by
  obtain ⟨r, hr, hd⟩ := foldl_bestScoreStep_spec (fuzzyScore (jsTrim (toLowerStr query)))
    apps none 0
  show apps.foldl (bestScoreStep (fuzzyScore (jsTrim (toLowerStr query)))) (none, 0) = _
  rw [hr]
  rcases hd with ⟨hM, hra⟩ | ⟨hlt, y, hsome, hfind⟩
  · rw [hM, hra, if_neg (lt_irrefl 0)]
  · rw [if_pos hlt, hsome, hfind]

/-- Specification-side reading of claim C8 (§4.1 `bestMatch`): per-candidate
score `max(similarity(name, query), prefixBonus)` with the bonus granted
when either of the two compared strings is a prefix of the other, and, for
any non-empty candidate list, the first candidate attaining the maximal
score returned along with it. -/
def specCandidateScore (q : String) (app : AppInfo) : ℚ :=
  let name := toLowerStr app.appName
  max (similarity name q)
    (if strStartsWith name q || strStartsWith q name then 1 else 0)

def specBestMatch (apps : List AppInfo) (query : String) : Option AppInfo × ℚ :=
  let q := jsTrim (toLowerStr query)
  match apps with
  | [] => (none, 0)
  | x :: xs =>
    let best := (xs.map (specCandidateScore q)).foldl max (specCandidateScore q x)
    (apps.find? (fun a => decide (specCandidateScore q a = best)), best)

/-- Counterexample to claim C8 as stated: for the query `"mapsx"` and the
single candidate named `"maps"` (package `"zzz"`), the candidate's name is a
prefix of the query, so the claimed scoring yields bonus 1, but the code
grants no bonus (it only tests whether the query is a prefix of the name or
of the package) and scores 4/5. -/
theorem findBestFuzzyApp_ne_specBestMatch :
    findBestFuzzyApp [⟨"maps", "zzz"⟩] "mapsx" ≠ specBestMatch [⟨"maps", "zzz"⟩] "mapsx" := by
  have hlev : levenshtein "maps" "mapsx" = 1 := by decide
  have hcode : fuzzyScore "mapsx" ⟨"maps", "zzz"⟩ = 4/5 := by
    unfold fuzzyScore
    rw [(by decide : toLowerStr "maps" = "maps"), (by decide : toLowerStr "zzz" = "zzz")]
    dsimp only
    rw [hlev, (by decide : strStartsWith "maps" "mapsx" = false),
      (by decide : strStartsWith "zzz" "mapsx" = false),
      (by decide : ("maps" : String).length = 4),
      (by decide : ("mapsx" : String).length = 5)]
    norm_num [max_def]
  have hspec : specCandidateScore "mapsx" ⟨"maps", "zzz"⟩ = 1 := by
    unfold specCandidateScore similarity
    rw [(by decide : toLowerStr "maps" = "maps")]
    dsimp only
    rw [hlev, (by decide : strStartsWith "maps" "mapsx" = false),
      (by decide : strStartsWith "mapsx" "maps" = true),
      (by decide : ("maps" : String).length = 4),
      (by decide : ("mapsx" : String).length = 5)]
    norm_num [max_def]
  have h1 : findBestFuzzyApp [⟨"maps", "zzz"⟩] "mapsx" = (some ⟨"maps", "zzz"⟩, 4/5) := by
    unfold findBestFuzzyApp
    rw [(by decide : jsTrim (toLowerStr "mapsx") = "mapsx")]
    simp only [List.foldl_cons, List.foldl_nil, bestScoreStep, hcode]
    norm_num
  have h2 : (specBestMatch [⟨"maps", "zzz"⟩] "mapsx").2 = 1 := by
    unfold specBestMatch
    rw [(by decide : jsTrim (toLowerStr "mapsx") = "mapsx")]
    simp only [List.map_nil, List.foldl_nil, hspec]
  intro h
  rw [h1] at h
  have := congrArg Prod.snd h
  rw [h2] at this
  norm_num at this

end AiAssistant

namespace AiAssistant

/-! ## App Resolver: `handleAppLaunch`

`AppLauncherService.handleAppLaunch` (lines 35-185; part_005 lines 496-658
differs only in continuing past a failed alias launch).  The external
`appDetectionService.launchApp` collaborator is an oracle
`launch : String → LaunchRes`; the outcome records the returned
`{ success, ... }` value — `none` when the function falls off its end and
returns `undefined` — and the package a launch was attempted for. -/

/-- The `{ success, error? }` result of `appDetectionService.launchApp`. -/
structure LaunchRes where
  success : Bool
  error : Option String
deriving DecidableEq

/-- `x || "default"` on an optional string (JavaScript `||` treats
`undefined` and `""` as falsy). -/
def jsOrElse (s : Option String) (d : String) : String :=
  match s with
  | some e => if e = "" then d else e
  | none => d

structure LaunchOutcome where
  result : Option CmdResult
  attempted : Option String
deriving DecidableEq

/-- The direct-match chain: exact lowercased name, name substring, package
substring, then "every query word occurs in the name". -/
def directMatch (apps : List AppInfo) (searchTerm : String) : Option AppInfo :=
  match apps.find? (fun a => toLowerStr a.appName == searchTerm) with
  | some a => some a
  | none =>
    match apps.find? (fun a => strContains (toLowerStr a.appName) searchTerm) with
    | some a => some a
    | none =>
      match apps.find? (fun a => strContains (toLowerStr a.packageName) searchTerm) with
      | some a => some a
      | none =>
        let searchWords := splitWs searchTerm
        apps.find? (fun a => searchWords.all (fun w => strContains (toLowerStr a.appName) w))

/-- The loop over `searchTerm.split(/\s+/)` looking the words up in
`APP_ALIASES`. -/
def aliasWordLookup : List String → Option String
  | [] => none
  | w :: ws =>
    match lookupAlias w with
    | some pkg => some pkg
    | none => aliasWordLookup ws

/-- `/\bcam|camera\b/.test(s)`: either `cam` occurs starting at a word
boundary, or `camera` occurs ending at a word boundary. -/
def camTestAux : Option Char → List Char → Bool
  | prev, 'c' :: 'a' :: 'm' :: rest =>
    boundaryBefore prev ||
      (match rest with
       | 'e' :: 'r' :: 'a' :: rest2 => boundaryAfterOk rest2
       | _ => false) ||
      camTestAux (some 'c') ('a' :: 'm' :: rest)
  | _, c :: rest => camTestAux (some c) rest
  | _, [] => false

def isCameraQuery (s : String) : Bool := camTestAux none s.data

/-- The "did you mean" fallback: up to three apps sharing a 3-character
prefix with the query, else the "list apps" hint. -/
def suggestOutcome (appName : String) (apps : List AppInfo) (searchTerm : String) :
    LaunchOutcome :=
  let similar := (apps.filter (fun a =>
      strContains (toLowerStr a.appName) (strTake searchTerm 3) ||
        strContains searchTerm (strTake (toLowerStr a.appName) 3))).take 3
  if similar ≠ [] then
    ⟨some ⟨false, some ("Application \"" ++ appName ++ "\" not found. Did you mean: " ++
      String.intercalate ", " (similar.map (fun a => a.appName)) ++ "?")⟩, none⟩
  else
    ⟨some ⟨false, some ("Application \"" ++ appName ++
      "\" not found. Use \"list apps\" to see available applications.")⟩, none⟩

/-- `AppLauncherService.handleAppLaunch(appName)` with inventory `apps` and
launch oracle `launch`. -/
def handleAppLaunch (appName : String) (apps : List AppInfo)
    (launch : String → LaunchRes) : LaunchOutcome :=
  if jsTrim appName = "" then
    ⟨some ⟨false, some "Please specify an application name"⟩, none⟩
  else if apps = [] then
    ⟨some ⟨false, some "No applications detected. Please check app permissions."⟩, none⟩
  else
    let searchTerm := jsTrim (toLowerStr appName)
    let aliasKey := collapseWs searchTerm
    match lookupAlias aliasKey with
    | some pkg =>
      let res := launch pkg
      if res.success then ⟨some ⟨true, some ("Launched " ++ appName)⟩, some pkg⟩
      else ⟨some ⟨false, res.error⟩, some pkg⟩
    | none =>
      match aliasWordLookup (splitWs searchTerm) with
      | some pkg =>
        let res := launch pkg
        if res.success then ⟨some ⟨true, some ("Launched " ++ appName)⟩, some pkg⟩
        else ⟨some ⟨false, res.error⟩, some pkg⟩
      | none =>
        match directMatch apps searchTerm with
        | some app =>
          let pkgLower := toLowerStr app.packageName
          let askedSettings :=
            strContains searchTerm "setting" || strContains searchTerm "settings"
          if strContains pkgLower "settings" && !askedSettings then
            -- `// Skip settings apps if not explicitly requested`:
            -- the source has an empty then-branch here and the else-branch
            -- returns, so control falls off the end of the function and the
            -- caller receives `undefined`.
            ⟨none, none⟩
          else
            let result := launch app.packageName
            if !result.success then
              ⟨some ⟨false, some ("Failed to launch " ++ app.appName ++ ": " ++
                jsOrElse result.error "Unable to launch application")⟩, some app.packageName⟩
            else
              ⟨some ⟨true, some ("Successfully launched " ++ app.appName)⟩,
                some app.packageName⟩
        | none =>
          let fz := findBestFuzzyApp apps searchTerm
          let threshold : ℚ := if isCameraQuery searchTerm then 1/2 else 3/5
          match fz.1 with
          | some fuzzyApp =>
            if fz.2 ≥ threshold then
              let launchRes := launch fuzzyApp.packageName
              if launchRes.success then
                ⟨some ⟨true, some ("Launched " ++ fuzzyApp.appName)⟩,
                  some fuzzyApp.packageName⟩
              else
                ⟨some ⟨false, some (jsOrElse launchRes.error "Launch failed")⟩,
                  some fuzzyApp.packageName⟩
            else suggestOutcome appName apps searchTerm
          | none => suggestOutcome appName apps searchTerm

/-- Claim C4 (code bug): in the app-resolution branch in which a directly
matched package containing "settings" is skipped because the query did not
mention settings, `handleAppLaunch` falls off the end of the function: the
dispatcher receives no `{ success, message? }` result at all (`undefined`),
contradicting both the dispatcher contract and the branch's own comment
("Skip this Settings match and continue to fuzzy/suggestions below"). -/
theorem settings_skip_returns_no_result :
    handleAppLaunch "notes" [⟨"notes", "com.example.notes.settings"⟩]
      (fun _ => ⟨true, none⟩) = ⟨none, none⟩ := by decide

end AiAssistant

namespace AiAssistant

/-- Counterexample to claim C6 as stated: for the settings-free query
`"mapz"` against an inventory whose only app is named `"maps"` with package
`"com.android.settings"`, no direct tier matches, and the fuzzy-fallback
tier scores 3/4 ≥ 0.6 and launches the settings package — the settings-skip
rule is not applied at the fuzzy tier. -/
theorem fuzzy_tier_launches_settings_package :
    handleAppLaunch "mapz" [⟨"maps", "com.android.settings"⟩] (fun _ => ⟨true, none⟩) =
      ⟨some ⟨true, some "Launched maps"⟩, some "com.android.settings"⟩ ∧
    strContains "mapz" "setting" = false ∧ strContains "mapz" "settings" = false := by
  refine ⟨?_, by decide, by decide⟩
  have hq : jsTrim (toLowerStr "mapz") = "mapz" := by decide
  have hlev : levenshtein "maps" "mapz" = 1 := by decide
  have hscore : fuzzyScore "mapz" ⟨"maps", "com.android.settings"⟩ = 3/4 := by
    unfold fuzzyScore
    rw [(by decide : toLowerStr "maps" = "maps"),
      (by decide : toLowerStr "com.android.settings" = "com.android.settings")]
    dsimp only
    rw [hlev, (by decide : strStartsWith "maps" "mapz" = false),
      (by decide : strStartsWith "com.android.settings" "mapz" = false),
      (by decide : ("maps" : String).length = 4),
      (by decide : ("mapz" : String).length = 4)]
    norm_num [max_def]
  have hfz : findBestFuzzyApp [⟨"maps", "com.android.settings"⟩] "mapz" =
      (some ⟨"maps", "com.android.settings"⟩, 3/4) := by
    unfold findBestFuzzyApp
    rw [hq]
    simp only [List.foldl_cons, List.foldl_nil, bestScoreStep, hscore]
    norm_num
  unfold handleAppLaunch
  simp +decide only [hq, hfz,
    (by decide : lookupAlias (collapseWs "mapz") = none),
    (by decide : aliasWordLookup (splitWs "mapz") = none),
    (by decide : directMatch [⟨"maps", "com.android.settings"⟩] "mapz" =
      (none : Option AppInfo)),
    (by decide : isCameraQuery "mapz" = false)]
  norm_num
  decide

end AiAssistant

namespace AiAssistant

/-- Claim C6 as amended: the settings-skip rule is enforced at the
direct-match tier — when neither alias tier fires and the direct match
selects an app whose package contains "settings" while the query mentions
neither "setting" nor "settings", no launch is attempted at all (the call
yields no result, see C4) — and the query `"settings"` resolves and
launches the settings package.  The rule is not applied at the
fuzzy-fallback tier (`fuzzy_tier_launches_settings_package`). -/
theorem settings_skip_at_direct_tier :
    (∀ (appName : String) (apps : List AppInfo) (launch : String → LaunchRes)
      (app : AppInfo),
      jsTrim appName ≠ "" →
      lookupAlias (collapseWs (jsTrim (toLowerStr appName))) = none →
      aliasWordLookup (splitWs (jsTrim (toLowerStr appName))) = none →
      strContains (jsTrim (toLowerStr appName)) "setting" = false →
      strContains (jsTrim (toLowerStr appName)) "settings" = false →
      directMatch apps (jsTrim (toLowerStr appName)) = some app →
      strContains (toLowerStr app.packageName) "settings" = true →
      handleAppLaunch appName apps launch = ⟨none, none⟩) ∧
    handleAppLaunch "settings" [⟨"Settings", "com.android.settings"⟩]
      (fun _ => ⟨true, none⟩) =
      ⟨some ⟨true, some "Successfully launched Settings"⟩,
        some "com.android.settings"⟩ := by
  constructor
  · intro appName apps launch app h1 h2 h3 h4 h5 h6 h7
    have happs : apps ≠ [] := by
      intro h; subst h
      simp [directMatch] at h6
    unfold handleAppLaunch
    rw [if_neg h1, if_neg happs]
    dsimp only
    rw [h2]
    dsimp only
    rw [h3]
    dsimp only
    rw [h6]
    dsimp only
    rw [h7, h4, h5]
    simp
  · decide

/-- Witness for the amended C6 at a concrete skip instance. -/
theorem settings_skip_at_direct_tier_witness :
    handleAppLaunch "videos" [⟨"videos", "org.example.settings"⟩]
      (fun _ => ⟨true, none⟩) = ⟨none, none⟩ :=
  settings_skip_at_direct_tier.1 "videos" [⟨"videos", "org.example.settings"⟩]
    (fun _ => ⟨true, none⟩) ⟨"videos", "org.example.settings"⟩
    (by decide) (by decide) (by decide) (by decide) (by decide) (by decide) (by decide)

end AiAssistant

namespace AiAssistant

/-! ## Recognition Session Manager: the chunk-start guard

`VoiceAssistantService.startRecording` (part_005 lines 741-770) is the only
operation that creates a recording in the canonical listening loop (it is
called from `startListening`, from the auto-restart in `speak`, and from the
auto-restart timer of `stopRecording`).  Its guard sequence is: return if
not listening or processing; if `preventRecordingDuringSpeak` is set, poll
the flag every 150 ms for up to 5000 ms and return if it is still set;
return if a chunk start is already being prepared; otherwise create the
recording.  The flag is written concurrently by `speak`, so the values it
takes at the successive poll instants are an oracle `flagTrace` (with
`flagTrace 0` the value read at entry); `maxPolls` is however many sleeps
the 5-second budget allows. -/

structure SessionFlags where
  isListening : Bool
  processingCommand : Bool
  preventRecordingDuringSpeak : Bool
  preparingRecording : Bool
deriving DecidableEq

inductive StartRecordingOutcome where
  | notStarted
  | started (flagAtStart : Bool)
deriving DecidableEq

/-- The value of the suppression flag when the wait loop of `startRecording`
finishes: if it was clear at entry the loop does not run; otherwise the loop
ends with the flag clear as soon as some poll within the budget observes it
clear, and with the flag still set when every poll observes it set. -/
def flagWait (flagTrace : Nat → Bool) (maxPolls : Nat) : Bool :=
  if flagTrace 0 then
    match (List.range (maxPolls + 1)).find? (fun n => !flagTrace n) with
    | some _ => false
    | none => true
  else flagTrace 0

/-- The decision portion of `startRecording`: whether a recording is
created, and the value of the suppression flag observed at the creation
decision. -/
def startRecordingStep (s : SessionFlags) (flagTrace : Nat → Bool)
    (maxPolls : Nat) : StartRecordingOutcome :=
  if !s.isListening || s.processingCommand then .notStarted
  else if flagWait flagTrace maxPolls then .notStarted
  else if s.preparingRecording then .notStarted
  else .started (flagWait flagTrace maxPolls)

/-- Claim C5: a chunk start never creates a recording while the
prevent-recording-while-speaking flag is observed set — the guard either
waits for the flag to clear within its 5-second budget or declines; in
particular, when the flag stays set at every poll instant of the budget, no
recording is created. -/
theorem recording_never_starts_while_speaking (s : SessionFlags)
    (flagTrace : Nat → Bool) (maxPolls : Nat) :
    (∀ b, startRecordingStep s flagTrace maxPolls = .started b → b = false) ∧
    ((∀ n, n ≤ maxPolls → flagTrace n = true) →
      startRecordingStep s flagTrace maxPolls = .notStarted) := by
  constructor
  · intro b hb
    by_cases h1 : (!s.isListening || s.processingCommand) = true
    · simp [startRecordingStep, h1] at hb
    · by_cases h2 : flagWait flagTrace maxPolls = true
      · simp [startRecordingStep, h1, h2] at hb
      · by_cases h3 : s.preparingRecording = true
        · simp [startRecordingStep, h1, h2, h3] at hb
        · simp [startRecordingStep, h1, h2, h3] at hb
          exact hb
  · intro hall
    have hfind : (List.range (maxPolls + 1)).find? (fun n => !flagTrace n) = none := by
      rw [List.find?_eq_none]
      intro n hn
      have := hall n (by
        have := List.mem_range.mp hn
        omega)
      simp [this]
    have hflag : flagWait flagTrace maxPolls = true := by
      unfold flagWait
      rw [hall 0 (Nat.zero_le _), hfind]
      simp
    simp [startRecordingStep, hflag]

/-- Witness for C5: with the flag set and never clearing during the wait,
the chunk start declines. -/
theorem recording_never_starts_while_speaking_witness :
    startRecordingStep ⟨true, false, true, false⟩ (fun _ => true) 33 = .notStarted :=
  (recording_never_starts_while_speaking ⟨true, false, true, false⟩
    (fun _ => true) 33).2 (fun _ _ => rfl)

end AiAssistant

namespace AiAssistant

/-! ## History service

`historyService.add` / `historyService.addWithResponse` keep the stored
entries newest-first (`items.unshift(entry)`); a call whose normalized
content equals that of the current head entry and whose timestamp differs by
less than 3000 ms refreshes the head's timestamp instead of inserting.
Timestamps are `Date.now()` values, modelled as integers.  The random `id`
and the derived display fields (`day`, `month`, `year`, `time`) are
functions of the timestamp and carry no information of their own, so they
are not modelled. -/

structure HistoryEntry where
  command : String
  response : Option String
  type : Option String
  short : Option String
  expandable : Bool
  timestamp : Int
deriving DecidableEq

/-- `replace(/\s+/g, " ")`: each maximal whitespace run becomes one space. -/
def squeezeWsAux (prevWs : Bool) : List Char → List Char
  | [] => []
  | c :: rest =>
    if isWs c then
      if prevWs then squeezeWsAux true rest else ' ' :: squeezeWsAux true rest
    else c :: squeezeWsAux false rest

/-- The dedup normalization
`(s || "").trim().replace(/\s+/g, " ").toLowerCase()`. -/
def normalizeHist (s : String) : String :=
  toLowerStr (String.mk (squeezeWsAux false (jsTrim s).data))

/-- `historyService.add(command)` invoked at time `now` on the stored list
`items` (newest first). -/
def historyAdd (items : List HistoryEntry) (command : String) (now : Int) :
    List HistoryEntry :=
  let entry : HistoryEntry := ⟨command, none, none, none, false, now⟩
  match items with
  | last :: rest =>
    if normalizeHist last.command = normalizeHist entry.command ∧
        (last.timestamp - entry.timestamp).natAbs < 3000 then
      { last with timestamp := entry.timestamp } :: rest
    else entry :: items
  | [] => entry :: items

/-- The display text chosen by `addWithResponse`: the trimmed response when
non-empty, else the trimmed question, else `""`. -/
def respDisplay (question response : String) : String :=
  if jsTrim response ≠ "" then jsTrim response
  else if jsTrim question ≠ "" then jsTrim question
  else ""

/-- `(s || "")` before normalization of an optional response. -/
def normalizeResp (s : Option String) : String := normalizeHist (s.getD "")

/-- `historyService.addWithResponse(question, response, type)` at time
`now`. -/
def historyAddWithResponse (items : List HistoryEntry)
    (question response type : String) (now : Int) : List HistoryEntry :=
  let display := respDisplay question response
  let short : Option String :=
    if display.length > 80 then some (strTake display 80 ++ "...") else none
  let expandable := display.length > 80
  let entry : HistoryEntry := ⟨"", some display, some type, short, expandable, now⟩
  match items with
  | last :: rest =>
    if last.type = entry.type ∧
        normalizeResp last.response = normalizeResp entry.response ∧
        (last.timestamp - entry.timestamp).natAbs < 3000 then
      { last with timestamp := entry.timestamp } :: rest
    else entry :: items
  | [] => entry :: items

/-- Claim C9: two `add` calls with content equal after trimming,
whitespace-collapsing and lower-casing, whose timestamps differ by less than
3000 ms, produce exactly one stored entry (relative to a state whose head
does not already dedup-match the first call), and that entry carries the
later call's timestamp; likewise for two `addWithResponse` calls of the same
type with normalized-equal display responses. -/
theorem history_dedup (items : List HistoryEntry) (t1 t2 : Int) :
    (∀ (c1 c2 : String),
      normalizeHist c1 = normalizeHist c2 →
      (t1 - t2).natAbs < 3000 →
      (∀ h, items.head? = some h →
        ¬(normalizeHist h.command = normalizeHist c1 ∧
          (h.timestamp - t1).natAbs < 3000)) →
      historyAdd (historyAdd items c1 t1) c2 t2 =
        (⟨c1, none, none, none, false, t2⟩ : HistoryEntry) :: items) ∧
    (∀ (q1 r1 q2 r2 type : String),
      normalizeHist (respDisplay q1 r1) = normalizeHist (respDisplay q2 r2) →
      (t1 - t2).natAbs < 3000 →
      (∀ h, items.head? = some h →
        ¬(h.type = some type ∧
          normalizeResp h.response = normalizeResp (some (respDisplay q1 r1)) ∧
          (h.timestamp - t1).natAbs < 3000)) →
      historyAddWithResponse (historyAddWithResponse items q1 r1 type t1) q2 r2 type t2 =
        (⟨"", some (respDisplay q1 r1), some type,
          (if (respDisplay q1 r1).length > 80 then
            some (strTake (respDisplay q1 r1) 80 ++ "...") else none),
          (respDisplay q1 r1).length > 80, t2⟩ : HistoryEntry) :: items) := by
  constructor
  · intro c1 c2 hnorm hdt hfresh
    have h1 : historyAdd items c1 t1 =
        (⟨c1, none, none, none, false, t1⟩ : HistoryEntry) :: items := by
      unfold historyAdd
      cases items with
      | nil => rfl
      | cons h rest =>
        dsimp only
        rw [if_neg (hfresh h rfl)]
    rw [h1]
    unfold historyAdd
    dsimp only
    rw [if_pos ⟨hnorm, hdt⟩]
  · intro q1 r1 q2 r2 type hnorm hdt hfresh
    have h1 : historyAddWithResponse items q1 r1 type t1 =
        (⟨"", some (respDisplay q1 r1), some type,
          (if (respDisplay q1 r1).length > 80 then
            some (strTake (respDisplay q1 r1) 80 ++ "...") else none),
          (respDisplay q1 r1).length > 80, t1⟩ : HistoryEntry) :: items := by
      unfold historyAddWithResponse
      cases items with
      | nil => rfl
      | cons h rest =>
        dsimp only
        rw [if_neg (hfresh h rfl)]
    rw [h1]
    unfold historyAddWithResponse
    dsimp only
    rw [if_pos ⟨rfl, by simpa [normalizeResp] using hnorm, hdt⟩]

/-- Witness for C9: concrete dedup of `"Hello  there"` against
`"hello there "` 1000 ms later, from the empty history, and of two equal
LLM responses. -/
theorem history_dedup_witness :
    historyAdd (historyAdd [] "Hello  there" 0) "hello there " 1000 =
      [⟨"Hello  there", none, none, none, false, 1000⟩] ∧
    historyAddWithResponse
        (historyAddWithResponse [] "q" "All systems nominal." "llm" 0)
        "q2" "all systems  nominal." "llm" 1000 =
      [⟨"", some "All systems nominal.", some "llm", none, false, 1000⟩] := by
  constructor
  · exact (history_dedup [] 0 1000).1 "Hello  there" "hello there "
      (by decide) (by decide) (fun h hh => by simp at hh)
  · have := (history_dedup [] 0 1000).2 "q" "All systems nominal."
      "q2" "all systems  nominal." "llm" (by decide) (by decide)
      (fun h hh => by simp at hh)
    rw [this]
    norm_num
    decide

end AiAssistant

namespace AiAssistant

/-! ## Installed-apps inventory cache

`AppDetectionService` keeps `appsCache : InstalledApp[]`, initially empty.
`getInstalledApps` returns the cache whenever it is non-empty; otherwise, on
Android, it fetches the inventory, maps and sorts it into the cache, and on
a thrown error caches and returns the one-element fallback
`[{ packageName: applicationId, appName: applicationName, version }]`; on
other platforms it returns `[]` without caching.  `getAppInfo` and
`searchApps` read through `getInstalledApps`; `getAppIcon` touches only the
separate icon cache; `launchApp` does not touch the cache; `clearCache`
empties it.  The external fetch, the sort comparator (locale-dependent) and
the own-app identity are oracles. -/

structure InstalledApp where
  packageName : String
  appName : String
  version : Option String
  icon : Option String
  isSystemApp : Option Bool
deriving DecidableEq

/-- The outcome of the `getInstalledApps()` native fetch (already mapped to
`InstalledApp` records): a list, or a throw. -/
inductive FetchOutcome where
  | ok (apps : List InstalledApp)
  | err
deriving DecidableEq

/-- The environment of one `getInstalledApps` call. -/
structure DetectionEnv where
  android : Bool
  fetch : FetchOutcome
  sortFn : List InstalledApp → List InstalledApp
  selfApp : InstalledApp

/-- One `getInstalledApps()` call on cache state `cache`: the returned list,
the new cache, and whether the native fetch was attempted. -/
def getInstalledAppsRun (cache : List InstalledApp) (env : DetectionEnv) :
    List InstalledApp × List InstalledApp × Bool :=
  if cache ≠ [] then (cache, cache, false)
  else if env.android then
    match env.fetch with
    | .ok apps =>
      let c := env.sortFn apps
      (c, c, true)
    | .err => ([env.selfApp], [env.selfApp], true)
  else ([], cache, false)

/-- The operations of the service that could touch the apps cache. -/
inductive DetectionOp where
  | getApps
  | getAppInfoOp (pkg : String)
  | searchAppsOp (q : String)
  | getAppIconOp (pkg : String)
  | launchAppOp (pkg : String)
  | clearCache
deriving DecidableEq

/-- The apps-cache effect of each operation: the new cache and whether a
native inventory fetch was attempted. -/
def detectionStep (cache : List InstalledApp) (op : DetectionOp)
    (env : DetectionEnv) : List InstalledApp × Bool :=
  match op with
  | .getApps | .getAppInfoOp _ | .searchAppsOp _ =>
    let r := getInstalledAppsRun cache env
    (r.2.1, r.2.2)
  | .getAppIconOp _ => (cache, false)
  | .launchAppOp _ => (cache, false)
  | .clearCache => ([], false)

/-- Claim C10: when the inventory fetch throws on an empty cache,
`getInstalledApps` caches and returns the one-element fallback containing
only the assistant's own application; any call on a non-empty cache returns
the cache unchanged without attempting a fetch; and no operation except
`clearCache` ever changes a non-empty cache or attempts a fetch. -/
theorem inventory_cache_behaviour (env : DetectionEnv) :
    (env.android = true → env.fetch = .err →
      getInstalledAppsRun [] env = ([env.selfApp], [env.selfApp], true)) ∧
    (∀ cache : List InstalledApp, cache ≠ [] →
      getInstalledAppsRun cache env = (cache, cache, false)) ∧
    (∀ (cache : List InstalledApp) (op : DetectionOp), cache ≠ [] →
      op ≠ .clearCache → detectionStep cache op env = (cache, false)) := by
  refine ⟨?_, ?_, ?_⟩
  · intro ha hf
    unfold getInstalledAppsRun
    rw [if_neg (by simp), if_pos ha, hf]
  · intro cache hc
    unfold getInstalledAppsRun
    rw [if_pos hc]
  · intro cache op hc hop
    have hrun : getInstalledAppsRun cache env = (cache, cache, false) := by
      unfold getInstalledAppsRun
      rw [if_pos hc]
    cases op with
    | getApps => simp [detectionStep, hrun]
    | getAppInfoOp pkg => simp [detectionStep, hrun]
    | searchAppsOp q => simp [detectionStep, hrun]
    | getAppIconOp pkg => rfl
    | launchAppOp pkg => rfl
    | clearCache => exact absurd rfl hop

/-- Witness for C10 at a concrete environment and cache. -/
theorem inventory_cache_behaviour_witness :
    getInstalledAppsRun []
        ⟨true, .err, id, ⟨"com.yorha.app2b", "2B Assistant", none, none, none⟩⟩ =
      ([⟨"com.yorha.app2b", "2B Assistant", none, none, none⟩],
        [⟨"com.yorha.app2b", "2B Assistant", none, none, none⟩], true) :=
  (inventory_cache_behaviour
    ⟨true, .err, id, ⟨"com.yorha.app2b", "2B Assistant", none, none, none⟩⟩).1 rfl rfl

end AiAssistant
